import Mathlib

/-!
Verification of the geometry pipeline of the woodWOP post processor
(`woodwop_post.py`): command normalization (`extract_contour_from_path`),
arc radius resolution and serialization (`generate_mpr_content`), minimum
point location (`calculate_part_minimum`) and tool-number resolution
(`get_tool_number`, `extract_drilling_operations`).

Numbers are modelled as rationals.  The transcendental functions used by
the source (`math.sqrt`, `math.atan2`, `math.cos`, `math.sin`, `math.pi`)
are parameters of the embedding, collected in `TrigOps`: every theorem
quantifies over them, and concrete instances (exact on the inputs the
witnesses use) are provided for evaluation.  String labels and the purely
textual parts of the output (header constants, comments, analysis logging)
carry no geometry and are not modelled; each emitted record's numeric
fields are modelled by a `Rec` value, in emission order.
-/

namespace Woodwop

/-- Environment of transcendental functions (`math.sqrt`, `math.atan2`,
`math.cos`, `math.sin`, `math.pi` of the source). -/
structure TrigOps where
  sqrt : ℚ → ℚ
  atan2 : ℚ → ℚ → ℚ
  cos : ℚ → ℚ
  sin : ℚ → ℚ
  pi : ℚ

/-- A point (x, y, z). -/
structure Pt where
  x : ℚ
  y : ℚ
  z : ℚ
deriving DecidableEq

/-- Arc direction: `'CW'` for G2, `'CCW'` for G3. -/
inductive Direction where
  | cw
  | ccw
deriving DecidableEq

/-- The `move_type` tag stored on line elements ('G0' or 'G1'); the
discretized arc segments carry none. -/
inductive MoveType where
  | g0
  | g1
deriving DecidableEq

/-- A contour element: the `'KL'` / `'KA'` dictionaries built by
`extract_contour_from_path`.  `KA` carries end point (x, y, z), center
offsets (i, j) from the previous point, the intermediate point (x2, y2),
the stored radius r and the direction. -/
inductive Elem where
  | kl (x y z : ℚ) (moveType : Option MoveType)
  | ka (x y z i j x2 y2 r : ℚ) (dir : Direction)
deriving DecidableEq

/-- A contour: `{id, elements, start_pos}` (the string label carries no
geometry and is omitted). -/
structure Contour where
  id : ℕ
  elements : List Elem
  start : Pt
deriving DecidableEq

/-- An operation record.  The constant `id` fields of the source dicts
(102 / 105 / 107) are determined by the constructor. -/
inductive Op where
  | bohrVert (xa ya depth : ℚ) (tool : ℤ)
  | contourfraesen (contour : ℕ) (tool : ℤ)
  | pocket (contour : ℕ) (tool : ℤ)
deriving DecidableEq

/-- Command names inspected by the source.  `g0` stands for 'G0'/'G00'
etc.  A name starting with 'T' is `tcmd n` where `n` is the result of
parsing its integer suffix (`none` when `int()` fails); all other names
are `other`. -/
inductive CmdName where
  | g0
  | g1
  | g2
  | g3
  | g81
  | g82
  | g83
  | tcmd (n : Option ℤ)
  | other
deriving DecidableEq

/-- A path command: name plus the parameter letters the source reads
(`X`, `Y`, `Z`, `I`, `J`, `R`); `none` when the letter is absent. -/
structure Cmd where
  name : CmdName
  x : Option ℚ
  y : Option ℚ
  z : Option ℚ
  i : Option ℚ
  j : Option ℚ
  r : Option ℚ
deriving DecidableEq

/-- State of the command walk in `extract_contour_from_path`: cursor
(current_x, current_y, current_z) and the recorded start position
(`none` while `start_x is None`). -/
structure NormState where
  cx : ℚ
  cy : ℚ
  cz : ℚ
  start : Option Pt
deriving DecidableEq

/-- Python `int()` applied to a float: truncation toward zero. -/
def pyTrunc (q : ℚ) : ℤ :=
  if q < 0 then -(Int.floor (-q)) else Int.floor q

/-- Rounding to the nearest integer (the spec's `round`). -/
def roundNearest (q : ℚ) : ℤ :=
  Int.floor (q + 1/2)

/-- Angle normalization shared by normalizer and serializer: for CCW, if
`end < start` add 2*pi; for CW, if `end > start` subtract 2*pi
(source lines 1675-1678, 1710-1713, 2309-2312). -/
def normalizeEndAngle (piV : ℚ) (dir : Direction) (sa ea : ℚ) : ℚ :=
  match dir with
  | .ccw => if ea < sa then ea + 2 * piV else ea
  | .cw => if sa < ea then ea - 2 * piV else ea

/-- Segment count for discretizing an out-of-plane arc:
`max(8, int(abs(end_angle - start_angle) * 180 / math.pi / 5))`
(source line 1681). -/
def numSegments (piV sweep : ℚ) : ℕ :=
  (max 8 (pyTrunc (sweep * 180 / piV / 5))).toNat

/-- The discretization loop `for seg in range(1, num_segments + 1)`
(source lines 1683-1696): one `KL` per segment, with the angle and Z
linearly interpolated. -/
def discretizeArc (t : TrigOps) (cx cy radius sa ea cz z : ℚ) (n : ℕ) :
    List Elem :=
  (List.range n).map fun (k : ℕ) =>
    let frac : ℚ := ((k : ℚ) + 1) / (n : ℚ)
    let ang := sa + (ea - sa) * frac
    .kl (cx + radius * t.cos ang) (cy + radius * t.sin ang)
      (cz + (z - cz) * frac) none

/-- The G2/G3 branch of `extract_contour_from_path` (source lines
1653-1731): if Z changes by more than 0.001, discretize into lines,
else emit a single `KA` element. -/
def processArc (t : TrigOps) (s : NormState) (x y z i j : ℚ)
    (dir : Direction) : List Elem :=
  let cx := s.cx + i
  let cy := s.cy + j
  let radius := if i ≠ 0 ∨ j ≠ 0 then t.sqrt (i * i + j * j) else 0
  let sa := t.atan2 (s.cy - cy) (s.cx - cx)
  let ea := normalizeEndAngle t.pi dir sa (t.atan2 (y - cy) (x - cx))
  if 1/1000 < |z - s.cz| then
    discretizeArc t cx cy radius sa ea s.cz z (numSegments t.pi (|ea - sa|))
  else
    let midAngle := (sa + ea) / 2
    [.ka x y z i j (cx + radius * t.cos midAngle)
      (cy + radius * t.sin midAngle) radius dir]

/-- Is this a movement command name (the list at source line 1613)? -/
def CmdName.isMove : CmdName → Bool
  | .g0 | .g1 | .g2 | .g3 => true
  | _ => false

/-- One iteration of the command loop of `extract_contour_from_path`
(source lines 1604-1735): resolve (x, y, z) with the cursor as default,
record the start position on the first movement command, emit elements
for G0/G1/G2/G3, and always advance the cursor to the resolved
position. -/
def processCmd (t : TrigOps) (s : NormState) (c : Cmd) :
    List Elem × NormState :=
  let x := c.x.getD s.cx
  let y := c.y.getD s.cy
  let z := c.z.getD s.cz
  let st := match s.start with
    | some p => some p
    | none => if c.name.isMove then some ⟨s.cx, s.cy, s.cz⟩ else none
  let es : List Elem :=
    match c.name with
    | .g0 =>
      if ¬ (|x - s.cx| < 1/1000 ∧ |y - s.cy| < 1/1000 ∧ |z - s.cz| < 1/1000)
      then [.kl x y z (some .g0)] else []
    | .g1 =>
      if ¬ (|x - s.cx| < 1/1000 ∧ |y - s.cy| < 1/1000 ∧ |z - s.cz| < 1/1000)
      then [.kl x y z (some .g1)] else []
    | .g2 => processArc t s x y z (c.i.getD 0) (c.j.getD 0) .cw
    | .g3 => processArc t s x y z (c.i.getD 0) (c.j.getD 0) .ccw
    | _ => []
  (es, ⟨x, y, z, st⟩)

/-- The command loop: concatenated elements plus final state. -/
def processPath (t : TrigOps) (s : NormState) : List Cmd → List Elem × NormState
  | [] => ([], s)
  | c :: cs =>
    let r := processCmd t s c
    let rest := processPath t r.2 cs
    (r.1 ++ rest.1, rest.2)

/-- `extract_contour_from_path`: walk the commands from cursor (0,0,0)
and return the elements and the start position (defaulting to
(0,0,0)). -/
def extract_contour_from_path (t : TrigOps) (cmds : List Cmd) :
    List Elem × Pt :=
  let r := processPath t ⟨0, 0, 0, none⟩ cmds
  (r.1, r.2.start.getD ⟨0, 0, 0⟩)

/-! ## Arc radius resolution (STEP 2 - STEP 7 of the KA branch of
`generate_mpr_content`, source lines 2335-2429) -/

/-- STEP 2 (source lines 2337-2341): take the element's stored radius;
if it is `<= 0.001`, use the average of the two radii calculated from
the center. -/
def initialRadius (r0 r1 r2 : ℚ) : ℚ :=
  if r0 ≤ 1/1000 then (r1 + r2) / 2 else r0

/-- STEP 3 (source lines 2345-2354): if the radius disagrees with either
geometric radius by more than 0.001, replace it by their average. -/
def step3Radius (r r1 r2 : ℚ) : ℚ :=
  if 1/1000 < |r - r1| ∨ 1/1000 < |r - r2| then (r1 + r2) / 2 else r

/-- The `while chord_length - 2 * radius > 0.0001 and iteration <
max_iterations` loop of STEP 5 (source lines 2366-2375), as a
fuel-bounded recursion with `max_iterations = 10`. -/
def adjustLoop180 : ℕ → ℚ → ℚ → ℚ
  | 0, _, r => r
  | n + 1, ch, r =>
    if 1/10000 < ch - 2 * r then adjustLoop180 n ch (ch / 2 + 1/1000) else r

/-- STEP 5 (source lines 2363-2385): when the arc angle is within 0.001
of pi, run the adjustment loop, then force the radius up to
`chord/2 + 0.001`. -/
def step5Radius (piV ang ch r : ℚ) : ℚ :=
  if |ang - piV| < 1/1000 then
    let r' := adjustLoop180 10 ch r
    if r' < ch / 2 + 1/1000 then ch / 2 + 1/1000 else r'
  else r

/-- STEP 6 (source lines 2388-2391): if the radius is still `<= 0.001`,
set it to `max(chord/2, 0.001)`. -/
def step6Radius (ch r : ℚ) : ℚ :=
  if r ≤ 1/1000 then max (ch / 2) (1/1000) else r

/-- The radius reaching the STEP 7 skip test: STEP 2, 3, 5 and 6
composed. -/
def resolveRadius (piV ang ch r0 r1 r2 : ℚ) : ℚ :=
  step6Radius ch (step5Radius piV ang ch (step3Radius (initialRadius r0 r1 r2) r1 r2))

/-- The `real_correction` fix-up after the skip test (source lines
2420-2427): for a 180-degree arc with `2*radius - chord < 0` the radius
is raised to `chord/2 + |real_correction|/2 + 0.001`. -/
def realCorrectionRadius (piV ang ch r : ℚ) : ℚ :=
  if |ang - piV| < 1/1000 then
    if 2 * r - ch < 0 then ch / 2 + |2 * r - ch| / 2 + 1/1000 else r
  else r

/-- DS code (source lines 2462-2465): CW-small=0, CCW-small=1,
CW-large=2, CCW-large=3, where small means `arc_angle <= pi`. -/
def dsValue (dir : Direction) (piV ang : ℚ) : ℕ :=
  match dir with
  | .cw => if ang ≤ piV then 0 else 2
  | .ccw => if ang ≤ piV then 1 else 3

/-! ## Format serializer (geometry records of `generate_mpr_content`,
source lines 2184-2600) -/

/-- The numeric fields of one emitted record, in emission order:
contour header `]id`, start point `KP`, line `KL` (with its `.WI`/`.WZ`
angles), arc `KA` (with DS code, radius, calculated center `.I`/`.J`
and angles `.WI`/`.WO`/`.WAZ`), drilling `BohrVert` (`XA`, `YA`, `TI`,
`TNO`), contour milling and pocket records.  Fields the source emits
twice with the same value (`X=` and `.X=` etc.) appear once. -/
inductive Rec where
  | hdr (id : ℕ)
  | kp (x y z : ℚ)
  | kl (x y z wi wz : ℚ)
  | ka (x y z : ℚ) (ds : ℕ) (r cI cJ wi wo waz : ℚ)
  | bohr (xa ya depth : ℚ) (tool : ℤ)
  | cfr (contour : ℕ) (tool : ℤ)
  | pck (contour : ℕ) (tool : ℤ)
deriving DecidableEq

/-- Is this record an arc (`KA`) record? -/
def Rec.isKA : Rec → Bool
  | .ka _ _ _ _ _ _ _ _ _ _ => true
  | _ => false

/-- The calculated center fields (`.I`, `.J`) of a `KA` record. -/
def Rec.center : Rec → Option (ℚ × ℚ)
  | .ka _ _ _ _ _ cI cJ _ _ _ => some (cI, cJ)
  | _ => none

/-- Serialize one contour element (source lines 2216-2495).  The state
is the pair (previous point in original coordinates, previous point in
offset coordinates) — `prev_elem_*_orig` and `prev_elem_*` of the
source.  The KA branch computes the center from the original previous
point plus (i, j), applies the offset to it, resolves the radius
through STEP 2-6, skips the element when the resolved radius is below
0.001 (advancing only the offset-frame cursor, as the `continue` does),
and otherwise applies the `real_correction` fix-up and emits the
record. -/
def serializeElem (t : TrigOps) (off : Pt) (st : Pt × Pt) (e : Elem) :
    List Rec × (Pt × Pt) :=
  match e with
  | .kl x y z _mt =>
    let ex := x + off.x
    let ey := y + off.y
    let ez := z + off.z
    let dx := ex - st.2.x
    let dy := ey - st.2.y
    let dz := ez - st.2.z
    let wi := if 1/1000 < |dx| ∨ 1/1000 < |dy| then t.atan2 dy dx else 0
    let lxy := t.sqrt (dx * dx + dy * dy)
    let wz := if 1/1000 < lxy then t.atan2 dz lxy else 0
    ([.kl ex ey ez wi wz], (⟨x, y, z⟩, ⟨ex, ey, ez⟩))
  | .ka x y z i j _x2 _y2 r dir =>
    let ex := x + off.x
    let ey := y + off.y
    let ez := z + off.z
    let cx := st.1.x + i + off.x
    let cy := st.1.y + j + off.y
    let sa := t.atan2 (st.2.y - cy) (st.2.x - cx)
    let ea := normalizeEndAngle t.pi dir sa (t.atan2 (ey - cy) (ex - cx))
    let ang := |ea - sa|
    let r1 := t.sqrt ((st.2.x - cx) * (st.2.x - cx) + (st.2.y - cy) * (st.2.y - cy))
    let r2 := t.sqrt ((ex - cx) * (ex - cx) + (ey - cy) * (ey - cy))
    let ch := t.sqrt ((ex - st.2.x) * (ex - st.2.x) + (ey - st.2.y) * (ey - st.2.y))
    let rad := resolveRadius t.pi ang ch r r1 r2
    if rad < 1/1000 then
      ([], (st.1, ⟨ex, ey, ez⟩))
    else
      ([.ka ex ey ez (dsValue dir t.pi ang) (realCorrectionRadius t.pi ang ch rad)
          cx cy sa ea 0],
        (⟨x, y, z⟩, ⟨ex, ey, ez⟩))

/-- The element loop of one contour. -/
def serializeElems (t : TrigOps) (off : Pt) (st : Pt × Pt) :
    List Elem → List Rec
  | [] => []
  | e :: es =>
    let r := serializeElem t off st e
    r.1 ++ serializeElems t off r.2 es

/-- Serialize one contour (source lines 2184-2214): header, offset
start point, then the elements starting from the pair (start position,
offset start position). -/
def serializeContour (t : TrigOps) (off : Pt) (c : Contour) : List Rec :=
  .hdr c.id :: .kp (c.start.x + off.x) (c.start.y + off.y) (c.start.z + off.z) ::
    serializeElems t off
      (c.start, ⟨c.start.x + off.x, c.start.y + off.y, c.start.z + off.z⟩)
      c.elements

/-- Serialize one operation (source lines 2567-2597): drilling gets the
X/Y offset applied to its position, depth and tool are copied; milling
records reference the contour id and tool. -/
def serializeOp (off : Pt) : Op → Rec
  | .bohrVert xa ya depth tool => .bohr (xa + off.x) (ya + off.y) depth tool
  | .contourfraesen cid tool => .cfr cid tool
  | .pocket cid tool => .pck cid tool

/-- All geometry-bearing records of `generate_mpr_content`: the contour
blocks followed by the operation records. -/
def serializeGeometry (t : TrigOps) (off : Pt) (cs : List Contour)
    (os : List Op) : List Rec :=
  (cs.map (serializeContour t off)).flatten ++ os.map (serializeOp off)

/-! ## Minimum-point locator (`calculate_part_minimum`, source lines
1830-1944) -/

/-- One axis update: `if min is None or v < min: min = v`. -/
def updMin (m : Option ℚ) (v : ℚ) : Option ℚ :=
  match m with
  | none => some v
  | some w => if v < w then some v else some w

/-- The running minima (min_x, min_y, min_z), each `none` until the
first point is checked. -/
structure MinAcc where
  mx : Option ℚ
  my : Option ℚ
  mz : Option ℚ
deriving DecidableEq

/-- Fold one (x, y, z) point into all three minima. -/
def accPoint (m : MinAcc) (x y z : ℚ) : MinAcc :=
  ⟨updMin m.mx x, updMin m.my y, updMin m.mz z⟩

/-- Fold an X/Y pair only (the arc-extent check updates no Z). -/
def accXY (m : MinAcc) (x y : ℚ) : MinAcc :=
  ⟨updMin m.mx x, updMin m.my y, m.mz⟩

/-- End point of a contour element. -/
def elemEnd : Elem → Pt
  | .kl x y z _ => ⟨x, y, z⟩
  | .ka x y z _ _ _ _ _ _ => ⟨x, y, z⟩

/-- Fold one element (source lines 1871-1915): its end point; for arcs
additionally the center `previous + (i, j)` at the previous Z, and,
when the radius exceeds 0.001, the X/Y extents `center - radius`. -/
def scanElem (m : MinAcc) (prev : Pt) (e : Elem) : MinAcc :=
  let p := elemEnd e
  let m1 := accPoint m p.x p.y p.z
  match e with
  | .kl _ _ _ _ => m1
  | .ka _ _ _ i j _ _ r _ =>
    let cx := prev.x + i
    let cy := prev.y + j
    let m2 := accPoint m1 cx cy prev.z
    if 1/1000 < r then accXY m2 (cx - r) (cy - r) else m2

/-- The element loop, threading the previous point. -/
def scanElems (m : MinAcc) (prev : Pt) : List Elem → MinAcc
  | [] => m
  | e :: es => scanElems (scanElem m prev e) (elemEnd e) es

/-- Fold one contour: its start position, then its elements. -/
def scanContour (m : MinAcc) (c : Contour) : MinAcc :=
  scanElems (accPoint m c.start.x c.start.y c.start.z) c.start c.elements

/-- Fold one operation (source lines 1918-1932): drilling positions at
Z = -depth; other operations contribute nothing. -/
def scanOp (m : MinAcc) : Op → MinAcc
  | .bohrVert xa ya depth _ => accPoint m xa ya (-depth)
  | _ => m

/-- `calculate_part_minimum`: fold all contours then all operations,
returning (0, 0, 0) when nothing was found. -/
def calculate_part_minimum (cs : List Contour) (os : List Op) :
    ℚ × ℚ × ℚ :=
  let m := os.foldl scanOp (cs.foldl scanContour ⟨none, none, none⟩)
  match m.mx, m.my, m.mz with
  | some a, some b, some c => (a, b, c)
  | _, _, _ => (0, 0, 0)

/-! ## Tool number resolution (`get_tool_number`, source lines
1560-1583) and drilling extraction (`extract_drilling_operations`,
source lines 1744-1805) -/

/-- Does this command name start with 'T'? -/
def CmdName.isTCmd : CmdName → Bool
  | .tcmd _ => true
  | _ => false

/-- The host path object as `get_tool_number` observes it:
`ToolController.ToolNumber` and `ToolController.Tool.ToolNumber` when
present (both `none` when there is no `ToolController`), and the path
commands (empty when there is no path). -/
structure PathObj where
  toolControllerNumber : Option ℤ
  toolControllerToolNumber : Option ℤ
  commands : List Cmd
deriving DecidableEq

/-- The T-command scan (source lines 1576-1581): first command whose
name starts with 'T' and whose suffix parses as an integer; a parse
failure is passed over. -/
def findTCmd : List Cmd → Option ℤ
  | [] => none
  | c :: cs =>
    match c.name with
    | .tcmd (some n) => some n
    | _ => findTCmd cs

/-- `get_tool_number`: ToolController.ToolNumber, else
ToolController.Tool.ToolNumber, else the first parsed T command, else
the default 101. -/
def get_tool_number (o : PathObj) : ℤ :=
  match o.toolControllerNumber with
  | some n => n
  | none =>
    match o.toolControllerToolNumber with
    | some n => n
    | none =>
      match findTCmd o.commands with
      | some n => n
      | none => 101

/-- The drilling-position walk of `extract_drilling_operations` (source
lines 1762-1792): G81/G82/G83 record (x, y, depth) with
`depth = |z - r|` when a retract height R is given (non-zero) and `|z|`
otherwise, updating the X/Y cursor (not Z); G0/G1 update the whole
cursor; other commands are ignored. -/
def collectDrills : List Cmd → ℚ → ℚ → ℚ → List (ℚ × ℚ × ℚ)
  | [], _, _, _ => []
  | c :: cs, cx, cy, cz =>
    match c.name with
    | .g81 | .g82 | .g83 =>
      let x := c.x.getD cx
      let y := c.y.getD cy
      let z := c.z.getD cz
      let r := c.r.getD 0
      let depth := if r ≠ 0 then |z - r| else |z|
      (x, y, depth) :: collectDrills cs x y cz
    | .g0 | .g1 =>
      collectDrills cs (c.x.getD cx) (c.y.getD cy) (c.z.getD cz)
    | _ => collectDrills cs cx cy cz

/-- `extract_drilling_operations`: one `BohrVert` record (id 102) per
drilling position, all carrying this object's tool number. -/
def extract_drilling_operations (o : PathObj) : List Op :=
  (collectDrills o.commands 0 0 0).map fun p =>
    .bohrVert p.1 p.2.1 p.2.2 (get_tool_number o)

/-- `create_contour_milling` (source lines 1808-1816, label omitted). -/
def create_contour_milling (contourId : ℕ) (tool : ℤ) : Op :=
  .contourfraesen contourId tool

/-- `create_pocket_milling` (source lines 1819-1827, label omitted). -/
def create_pocket_milling (contourId : ℕ) (tool : ℤ) : Op :=
  .pocket contourId tool

/-- The tool field of an operation record. -/
def Op.tool : Op → ℤ
  | .bohrVert _ _ _ n => n
  | .contourfraesen _ n => n
  | .pocket _ n => n

/-- Is this a drilling (`BohrVert`) operation? -/
def Op.isBohr : Op → Bool
  | .bohrVert _ _ _ _ => true
  | _ => false

/-! ## Vocabulary taken from the spec, used to state the claims -/

/-- The claimed output transformation of a coordinate-offset change by
`d` in X: every absolute X field (start-point X, line X, arc end X, arc
center `.I`, drill `XA`) shifts by `d`; every other field is
unchanged. -/
def shiftRecX (d : ℚ) : Rec → Rec
  | .hdr n => .hdr n
  | .kp x y z => .kp (x + d) y z
  | .kl x y z wi wz => .kl (x + d) y z wi wz
  | .ka x y z ds r cI cJ wi wo waz => .ka (x + d) y z ds r (cI + d) cJ wi wo waz
  | .bohr xa ya depth tool => .bohr (xa + d) ya depth tool
  | .cfr c tool => .cfr c tool
  | .pck c tool => .pck c tool

/-- A point translated by the coordinate offset. -/
def ptOff (p off : Pt) : Pt :=
  ⟨p.x + off.x, p.y + off.y, p.z + off.z⟩

/-- `g` is the geometric mean of `a` and `b` (the spec's radius
fallback): non-negative with `g * g = a * b`. -/
def isGeomMean (g a b : ℚ) : Prop :=
  0 ≤ g ∧ g * g = a * b

/-- The claim's sub-tolerance hypothesis: this command moves the cursor
by less than 0.001 on every axis. -/
def subTolStep (s : NormState) (c : Cmd) : Prop :=
  |c.x.getD s.cx - s.cx| < 1/1000 ∧ |c.y.getD s.cy - s.cy| < 1/1000 ∧
    |c.z.getD s.cz - s.cz| < 1/1000

/-- Every command of the sequence is a sub-tolerance move from the
cursor the walk has reached. -/
def allSubTol (t : TrigOps) (s : NormState) : List Cmd → Prop
  | [] => True
  | c :: cs => subTolStep s c ∧ allSubTol t (processCmd t s c).2 cs

/-- The final resolved (x, y, z) of a command sequence: each command
resolves its missing letters from the cursor. -/
def resolvedCursor (p : ℚ × ℚ × ℚ) : List Cmd → ℚ × ℚ × ℚ
  | [] => p
  | c :: cs => resolvedCursor (c.x.getD p.1, c.y.getD p.2.1, c.z.getD p.2.2) cs

/-- The point preceding element `k` of a contour: the end point of
element `k-1`, or the start position for `k = 0` (the data-model
invariant of the spec). -/
def prevAt (start : Pt) (es : List Elem) (k : ℕ) : Pt :=
  (es.take k).foldl (fun _ e => elemEnd e) start

/-- The claim's targets contributed by one element given its previous
point: the end point always; for an arc also the reconstructed center
`previous + (i, j)` at the previous Z and — when the radius exceeds the
0.001 threshold — the X/Y extent point `center - radius`. -/
def elemTargets (prev : Pt) : Elem → List (ℚ × ℚ × ℚ)
  | .kl x y z _ => [(x, y, z)]
  | .ka x y z i j _ _ r _ =>
    (x, y, z) :: (prev.x + i, prev.y + j, prev.z) ::
      (if 1/1000 < r then [(prev.x + i - r, prev.y + j - r, prev.z)] else [])

/-! ## Concrete environments for witnesses and counterexamples -/

/-- A square-root stand-in for the witness environments, tabulated on
the inputs the witnesses evaluate; it is exact on the perfect squares
0, 1 and 4 (the value at 2 is an arbitrary stand-in — no witness uses
it in a field it reports). -/
def ratSqrt (q : ℚ) : ℚ :=
  if q = 0 then 0
  else if q = 1 then 1
  else if q = 2 then 3/2
  else if q = 4 then 2
  else 0

/-- An atan2 stand-in agreeing with `math.atan2` on the axes (up to the
rational pi stand-in 355/113): 0 on the positive X axis, pi on the
negative X axis, pi/2 and -pi/2 on the Y axis, 0 at the origin. -/
def axisAtan2 (y x : ℚ) : ℚ :=
  if 0 < x then 0
  else if x < 0 then 355/113
  else if 0 < y then 355/226
  else if y < 0 then -(355/226)
  else 0

/-- Environment used by witnesses: exact on the axis-aligned inputs they
evaluate. -/
def testTrig : TrigOps :=
  ⟨ratSqrt, axisAtan2, fun _ => 1, fun _ => 0, 355/113⟩

/-- Environment for the discretization counterexample: pi stand-in 3 and
an atan2 giving a sweep of 59/60 for the arc the counterexample uses. -/
def cexTrig : TrigOps :=
  ⟨ratSqrt, fun _ x => if x = 0 then 59/60 else 0, fun _ => 0, fun _ => 0, 3⟩

/-- The Z coordinate of an element's end point. -/
def Elem.zval : Elem → ℚ
  | .kl _ _ z _ => z
  | .ka _ _ z _ _ _ _ _ _ => z

/-- Is this element a line (`KL`)? -/
def Elem.isKL : Elem → Bool
  | .kl _ _ _ _ => true
  | _ => false

/-- Componentwise comparison of a returned minimum triple against a
point. -/
def tripleLe (p : ℚ × ℚ × ℚ) (x y z : ℚ) : Prop :=
  p.1 ≤ x ∧ p.2.1 ≤ y ∧ p.2.2 ≤ z

/-- The running minimum is defined and at most `v`. -/
def oLe (m : Option ℚ) (v : ℚ) : Prop :=
  ∃ w, m = some w ∧ w ≤ v

/-- All three running minima are defined and bound the given triple. -/
def oLe3 (m : MinAcc) (q : ℚ × ℚ × ℚ) : Prop :=
  oLe m.mx q.1 ∧ oLe m.my q.2.1 ∧ oLe m.mz q.2.2

/-- Concrete input for the C7 counterexample: a G2 arc from the origin
to (1, 0, 1) with center offset (0, 1) — the Z change forces
discretization; under `cexTrig` its sweep is 59/60 (59 degrees at the
pi stand-in 3). -/
def cmdArc59 : Cmd :=
  ⟨.g2, some 1, some 0, some 1, some 0, some 1, none⟩

/-- Concrete input for the C9 counterexample: a G2 command with no
parameters at all — a zero-displacement (hence sub-tolerance) arc. -/
def g2empty : Cmd :=
  ⟨.g2, none, none, none, none, none, none⟩

/-- Concrete input for the C9 witness: a G1 move of half a tolerance in
X. -/
def g1tiny : Cmd :=
  ⟨.g1, some (1/2000), none, none, none, none, none⟩

/-- Concrete input for the C10 theorem: a path object with no
ToolController data and a single G81 drilling cycle (Z = -3, R = 1),
hence no T command. -/
def drillObj : PathObj :=
  ⟨none, none, [⟨.g81, some 5, some 6, some (-3), none, none, some 1⟩]⟩

/-- Concrete input for the C8 counterexample: a contour consisting of
one arc with I=J=0 and stored radius 1/2000 — below the 0.001 extent
threshold of `calculate_part_minimum`. -/
def tinyArcContour : Contour :=
  ⟨1, [.ka 0 0 0 0 0 0 0 (1/2000) .cw], ⟨0, 0, 0⟩⟩

/-- Concrete contour for the C8 witness. -/
def witContour : Contour :=
  ⟨1, [.kl 3 4 5 none], ⟨6, 7, 8⟩⟩

/-- Concrete drilling operation for the C8 witness. -/
def witDrill : Op :=
  .bohrVert 1 2 9 101

/-! ## Shared lemmas -/

/-- The radius reaching the STEP 7 test is never below 0.001: STEP 6
guarantees it. -/
theorem resolveRadius_ge (piV ang ch r0 r1 r2 : ℚ) :
    1/1000 ≤ resolveRadius piV ang ch r0 r1 r2 := by
  unfold resolveRadius step6Radius
  split
  · exact le_max_right _ _
  · linarith [not_le.mp (by assumption : ¬ _)]

/-- After STEP 5 in the 180-degree case, the radius is at least
`chord/2 + 0.001`. -/
theorem step5Radius_ge (piV ang ch r : ℚ) (h : |ang - piV| < 1/1000) :
    ch / 2 + 1/1000 ≤ step5Radius piV ang ch r := by
  unfold step5Radius
  rw [if_pos h]
  show ch / 2 + 1/1000 ≤
    if adjustLoop180 10 ch r < ch / 2 + 1/1000 then ch / 2 + 1/1000
    else adjustLoop180 10 ch r
  split
  · exact le_refl _
  · exact le_of_not_lt (by assumption)

/-- In the 180-degree case the whole pipeline (STEP 2-6 plus the
`real_correction` fix-up) keeps `2 * radius >= chord`. -/
theorem finalRadius_chord (piV ang ch r0 r1 r2 : ℚ) (h : |ang - piV| < 1/1000) :
    ch ≤ 2 * realCorrectionRadius piV ang ch (resolveRadius piV ang ch r0 r1 r2) := by
  have h5 := step5Radius_ge piV ang ch
    (step3Radius (initialRadius r0 r1 r2) r1 r2) h
  have h6 : ch ≤ 2 * resolveRadius piV ang ch r0 r1 r2 := by
    unfold resolveRadius step6Radius
    split
    · have := le_max_left (ch / 2) (1/1000 : ℚ)
      linarith
    · linarith
  unfold realCorrectionRadius
  rw [if_pos h, if_neg (by linarith)]
  exact h6

/-- Every element serializes to exactly one record (the STEP 7 skip
branch never fires). -/
theorem serializeElem_length (t : TrigOps) (off : Pt) (st : Pt × Pt)
    (e : Elem) : ((serializeElem t off st e).1).length = 1 := by
  cases e with
  | kl x y z mt => rfl
  | ka x y z i j x2 y2 r dir =>
    simp only [serializeElem]
    rw [if_neg (not_lt.mpr (resolveRadius_ge _ _ _ _ _ _))]
    rfl

/-- Shifting the X offset by `d` shifts exactly the X fields of the
records produced by one element, leaves the original-frame cursor
untouched and shifts the offset-frame cursor. -/
theorem serializeElem_shiftX (t : TrigOps) (d : ℚ) (off : Pt) (po pf : Pt)
    (e : Elem) :
    serializeElem t ⟨off.x + d, off.y, off.z⟩ (po, ⟨pf.x + d, pf.y, pf.z⟩) e
      = (((serializeElem t off (po, pf) e).1).map (shiftRecX d),
         ((serializeElem t off (po, pf) e).2.1,
          ⟨(serializeElem t off (po, pf) e).2.2.x + d,
           (serializeElem t off (po, pf) e).2.2.y,
           (serializeElem t off (po, pf) e).2.2.z⟩)) := by
  cases e with
  | kl x y z mt =>
    simp only [serializeElem, shiftRecX, List.map_cons, List.map_nil]
    have h1 : x + (off.x + d) - (pf.x + d) = x + off.x - pf.x := by ring
    rw [h1]
    have h2 : x + (off.x + d) = x + off.x + d := by ring
    rw [h2]
  | ka x y z i j x2 y2 r dir =>
    simp only [serializeElem, shiftRecX, List.map_cons, List.map_nil]
    have h2 : x + (off.x + d) = x + off.x + d := by ring
    have h3 : po.x + i + (off.x + d) = po.x + i + off.x + d := by ring
    have h4 : pf.x + d - (po.x + i + off.x + d) = pf.x - (po.x + i + off.x) := by
      ring
    have h5 : x + off.x + d - (po.x + i + off.x + d)
        = x + off.x - (po.x + i + off.x) := by ring
    have h6 : x + off.x + d - (pf.x + d) = x + off.x - pf.x := by ring
    rw [h2, h3, h4, h5, h6]
    split <;> rfl

/-- The element loop commutes with the X shift. -/
theorem serializeElems_shiftX (t : TrigOps) (d : ℚ) (off : Pt)
    (es : List Elem) :
    ∀ po pf : Pt,
      serializeElems t ⟨off.x + d, off.y, off.z⟩ (po, ⟨pf.x + d, pf.y, pf.z⟩) es
        = (serializeElems t off (po, pf) es).map (shiftRecX d) := by
  induction es with
  | nil => intro po pf; rfl
  | cons e es ih =>
    intro po pf
    simp only [serializeElems]
    rw [serializeElem_shiftX, List.map_append, ih]

/-- One contour block commutes with the X shift. -/
theorem serializeContour_shiftX (t : TrigOps) (d : ℚ) (off : Pt)
    (c : Contour) :
    serializeContour t ⟨off.x + d, off.y, off.z⟩ c
      = (serializeContour t off c).map (shiftRecX d) := by
  unfold serializeContour
  simp only [List.map_cons, shiftRecX]
  have h1 : c.start.x + (off.x + d) = c.start.x + off.x + d := by ring
  rw [h1]
  congr 2
  exact serializeElems_shiftX t d off c.elements c.start
    ⟨c.start.x + off.x, c.start.y + off.y, c.start.z + off.z⟩

/-- One operation record commutes with the X shift. -/
theorem serializeOp_shiftX (d : ℚ) (off : Pt) (op : Op) :
    serializeOp ⟨off.x + d, off.y, off.z⟩ op
      = shiftRecX d (serializeOp off op) := by
  cases op with
  | bohrVert xa ya depth tool =>
    simp only [serializeOp, shiftRecX]
    have : xa + (off.x + d) = xa + off.x + d := by ring
    rw [this]
  | contourfraesen cid tool => rfl
  | pocket cid tool => rfl

/-- The whole geometry output commutes with the X shift. -/
theorem serializeGeometry_shiftX (t : TrigOps) (d : ℚ) (off : Pt)
    (cs : List Contour) (os : List Op) :
    serializeGeometry t ⟨off.x + d, off.y, off.z⟩ cs os
      = (serializeGeometry t off cs os).map (shiftRecX d) := by
  unfold serializeGeometry
  rw [List.map_append]
  congr 1
  · induction cs with
    | nil => rfl
    | cons c cs ih =>
      simp only [List.map_cons, List.flatten_cons, List.map_append]
      rw [serializeContour_shiftX, ih]
  · rw [List.map_map]
    exact List.map_congr_left fun op _ => serializeOp_shiftX d off op

/-! ## Claims -/

/-- C1: Offset rigidity of serialization — for fixed contours and
operations, serializing with coordinate offset (a+d, b, c) instead of
(a, b, c) shifts every emitted absolute X field (contour start-point X,
line X, arc end X, arc center `.I`, drill `XA`) by exactly `d` and
leaves every Y, Z, radius, DS code and angle field identical (this is
what `shiftRecX d` does to a record). -/
theorem offset_rigidity (t : TrigOps) (a b c d : ℚ) (cs : List Contour)
    (os : List Op) :
    serializeGeometry t ⟨a + d, b, c⟩ cs os
      = (serializeGeometry t ⟨a, b, c⟩ cs os).map (shiftRecX d) :=
  serializeGeometry_shiftX t d ⟨a, b, c⟩ cs os

/-- C2: Arc center invariant — every `KA` record serialized from an arc
element whose previous point is `p0` in original coordinates (hence
`ptOff p0 off` in the active offset frame) carries the calculated
center `(ptOff p0 off).x + i, (ptOff p0 off).y + j`, i.e. the previous
emitted point plus the stored offsets, for every coordinate offset. -/
theorem arc_center_invariant (t : TrigOps) (off p0 : Pt)
    (x y z i j x2 y2 r : ℚ) (dir : Direction) :
    ∀ rec ∈ (serializeElem t off (p0, ptOff p0 off)
        (.ka x y z i j x2 y2 r dir)).1,
      rec.center = some ((ptOff p0 off).x + i, (ptOff p0 off).y + j) := by
  intro rec hrec
  simp only [serializeElem, ptOff] at hrec
  rw [if_neg (not_lt.mpr (resolveRadius_ge _ _ _ _ _ _))] at hrec
  simp only [List.mem_singleton] at hrec
  subst hrec
  simp only [Rec.center, ptOff, Option.some.injEq, Prod.mk.injEq]
  constructor <;> ring

/-- Witness for C2: a concrete quarter-arc from (0,0) with center offset
(1,0) under coordinate offset (10,20,30); the emitted center `.I`/`.J`
equals the offset previous point plus (i, j) = (11, 20). -/
theorem arc_center_invariant_witness :
    (Rec.ka 11 21 30 0 1 11 20 (355/113) (355/226) 0).center
      = some ((ptOff ⟨0, 0, 0⟩ ⟨10, 20, 30⟩).x + 1,
              (ptOff ⟨0, 0, 0⟩ ⟨10, 20, 30⟩).y + 0) :=
  arc_center_invariant testTrig ⟨10, 20, 30⟩ ⟨0, 0, 0⟩ 1 1 0 1 0 0 0 1 .cw
    (Rec.ka 11 21 30 0 1 11 20 (355/113) (355/226) 0)
    (by
      have h : (serializeElem testTrig ⟨10, 20, 30⟩
          (⟨0, 0, 0⟩, ptOff ⟨0, 0, 0⟩ ⟨10, 20, 30⟩)
          (.ka 1 1 0 1 0 0 0 1 .cw)).1
            = [Rec.ka 11 21 30 0 1 11 20 (355/113) (355/226) 0] := by
        simp only [serializeElem, ptOff, testTrig, ratSqrt, axisAtan2,
          normalizeEndAngle, resolveRadius, initialRadius, step3Radius,
          step5Radius, adjustLoop180, step6Radius, realCorrectionRadius,
          dsValue]
        norm_num
        rw [abs_of_pos (by norm_num : (0 : ℚ) < 355/226)]
        norm_num
      rw [h]
      exact List.mem_singleton_self _)

/-- C3: 180-degree feasibility guard — whenever the computed arc angle
is within 0.001 of pi, the radius emitted by the serializer (the STEP
2-6 pipeline followed by the `real_correction` fix-up) satisfies
`2 * r >= chord - 1e-6` (in fact `2 * r >= chord`). -/
theorem arc180_feasibility (piV ang ch r0 r1 r2 : ℚ)
    (h : |ang - piV| < 1/1000) :
    ch - 1/1000000
      ≤ 2 * realCorrectionRadius piV ang ch (resolveRadius piV ang ch r0 r1 r2) := by
  have := finalRadius_chord piV ang ch r0 r1 r2 h
  linarith

/-- Witness for C3: a 180-degree arc (angle = pi stand-in 3) with chord
10 and all radii zero resolves to radius 5.001, and 2*5.001 exceeds
10 - 1e-6. -/
theorem arc180_feasibility_witness :
    (10 : ℚ) - 1/1000000
      ≤ 2 * realCorrectionRadius 3 3 10 (resolveRadius 3 3 10 0 0 0) :=
  arc180_feasibility 3 3 10 0 0 0 (by norm_num)

/-- C4 counterexample: the degenerate arc with I=J=0, stored radius 0
and end point displaced by 2 from the previous point is NOT dropped —
the serializer emits a `KA` record for it (with corrected radius 1),
contradicting the claimed rejection. -/
theorem degenerate_arc_cex :
    ¬ ((serializeElem testTrig ⟨0, 0, 0⟩ (⟨0, 0, 0⟩, ⟨0, 0, 0⟩)
        (.ka 2 0 0 0 0 0 0 0 .cw)).1 = []) := by
  simp only [serializeElem, testTrig, ratSqrt, axisAtan2, normalizeEndAngle,
    resolveRadius, initialRadius, step3Radius, step5Radius, adjustLoop180,
    step6Radius, realCorrectionRadius, dsValue]
  norm_num
  have habs : |(355/113 : ℚ)| = 355/113 := abs_of_pos (by norm_num)
  simp only [habs]
  norm_num

/-- C4 amended: an arc element with I=J=0 and stored radius 0 is never
dropped — the serializer always emits exactly one `KA` record for it
(after radius correction), and the previous-point cursor advances to
the arc's end point. -/
theorem degenerate_arc_emitted (t : TrigOps) (off : Pt) (st : Pt × Pt)
    (x y z x2 y2 : ℚ) (dir : Direction) :
    ∃ rec, serializeElem t off st (.ka x y z 0 0 x2 y2 0 dir)
        = ([rec], (⟨x, y, z⟩, ⟨x + off.x, y + off.y, z + off.z⟩))
      ∧ rec.isKA = true := by
  simp only [serializeElem]
  rw [if_neg (not_lt.mpr (resolveRadius_ge _ _ _ _ _ _))]
  exact ⟨_, rfl, rfl⟩

/-- C5: the resolved radius reaching the STEP 7 test is always at least
0.001, so the skip branch is unreachable: every arc element of every
contour produces exactly one emitted record, a `KA` record, and every
element list serializes to exactly as many records as elements. -/
theorem arc_skip_unreachable :
    (∀ piV ang ch r0 r1 r2 : ℚ, 1/1000 ≤ resolveRadius piV ang ch r0 r1 r2)
    ∧ (∀ (t : TrigOps) (off : Pt) (st : Pt × Pt) (x y z i j x2 y2 r : ℚ)
        (dir : Direction),
        ((serializeElem t off st (.ka x y z i j x2 y2 r dir)).1).length = 1
        ∧ ((serializeElem t off st (.ka x y z i j x2 y2 r dir)).1).all
            Rec.isKA = true)
    ∧ (∀ (t : TrigOps) (off : Pt) (st : Pt × Pt) (es : List Elem),
        (serializeElems t off st es).length = es.length) := by
  refine ⟨resolveRadius_ge, ?_, ?_⟩
  · intro t off st x y z i j x2 y2 r dir
    constructor
    · exact serializeElem_length t off st (.ka x y z i j x2 y2 r dir)
    · simp only [serializeElem]
      rw [if_neg (not_lt.mpr (resolveRadius_ge _ _ _ _ _ _))]
      rfl
  · intro t off st es
    induction es generalizing st with
    | nil => rfl
    | cons e es ih =>
      simp only [serializeElems, List.length_append, List.length_cons]
      rw [serializeElem_length, ih]
      simp [Nat.add_comm]

/-- C6 counterexample: the degenerate arc from (0,0) to (2,0) with
center offset (0,0) and stored radius 0 has geometric distances 0 (to
the previous point) and 2 (to the end point); the serializer emits
radius 1 — the arithmetic mean — which is not the geometric mean
`sqrt(0 * 2) = 0`. -/
theorem radius_fallback_cex :
    ((serializeElem testTrig ⟨0, 0, 0⟩ (⟨0, 0, 0⟩, ⟨0, 0, 0⟩)
        (.ka 2 0 0 0 0 1 0 0 .cw)).1 = [Rec.ka 2 0 0 0 1 0 0 0 0 0])
    ∧ ¬ isGeomMean 1 0 2 := by
  constructor
  · simp only [serializeElem, testTrig, ratSqrt, axisAtan2, normalizeEndAngle,
      resolveRadius, initialRadius, step3Radius, step5Radius, adjustLoop180,
      step6Radius, realCorrectionRadius, dsValue]
    norm_num
    have habs : |(355/113 : ℚ)| = 355/113 := abs_of_pos (by norm_num)
    simp only [habs]
    norm_num
  · intro h
    have := h.2
    norm_num at this

/-- C6 amended: when the declared radius is absent or near-zero
(`<= 0.001`), the radius resolution of STEP 2-3 yields the arithmetic
mean `(r1 + r2) / 2` of the two center distances (not their geometric
mean). -/
theorem radius_fallback_average (r0 r1 r2 : ℚ) (h : r0 ≤ 1/1000) :
    step3Radius (initialRadius r0 r1 r2) r1 r2 = (r1 + r2) / 2 := by
  unfold initialRadius
  rw [if_pos h]
  unfold step3Radius
  split <;> rfl

/-- Witness for C6 amended: distances 1 and 4 with no declared radius
resolve to 5/2. -/
theorem radius_fallback_average_witness :
    step3Radius (initialRadius 0 1 4) 1 4 = 5/2 := by
  rw [radius_fallback_average 0 1 4 (by norm_num)]
  norm_num

/-- The discretization loop emits exactly `n` elements. -/
theorem discretizeArc_length (t : TrigOps) (cx cy r sa ea cz z : ℚ) (n : ℕ) :
    (discretizeArc t cx cy r sa ea cz z n).length = n := by
  unfold discretizeArc
  rw [List.length_map, List.length_range]

/-- The Z values of the discretization loop interpolate linearly from
`cz` to `z`. -/
theorem discretizeArc_zmap (t : TrigOps) (cx cy r sa ea cz z : ℚ) (n : ℕ) :
    (discretizeArc t cx cy r sa ea cz z n).map Elem.zval
      = (List.range n).map
          (fun (k : ℕ) => cz + (z - cz) * (((k : ℚ) + 1) / (n : ℚ))) := by
  unfold discretizeArc
  rw [List.map_map]
  exact List.map_congr_left fun k _ => rfl

/-- The discretization loop emits only line elements. -/
theorem discretizeArc_allKL (t : TrigOps) (cx cy r sa ea cz z : ℚ) (n : ℕ) :
    (discretizeArc t cx cy r sa ea cz z n).all Elem.isKL = true := by
  unfold discretizeArc
  rw [List.all_eq_true]
  intro e he
  obtain ⟨k, -, hk⟩ := List.mem_map.mp he
  rw [← hk]
  rfl

/-- The segment count at pi stand-in 3 and sweep 59/60 (59 degrees) is
`max(8, int(11.8)) = 11`. -/
theorem numSegments_59 : numSegments 3 (59/60) = 11 := by
  unfold numSegments pyTrunc
  rw [show ((59 : ℚ)/60 * 180 / 3 / 5) = 59/5 by norm_num]
  rw [if_neg (by norm_num : ¬ ((59 : ℚ)/5 < 0))]
  rw [show Int.floor ((59 : ℚ)/5) = 11 by
    rw [Int.floor_eq_iff]
    norm_num]
  rfl

/-- C7 counterexample: under `cexTrig` the arc `cmdArc59` has sweep
59/60 (sweep_degrees = 59); the normalizer emits
`max(8, int(11.8)) = 11` line segments, not the claimed
`max(8, round(11.8)) = 12`. -/
theorem arc_discretization_cex :
    ¬ (((processCmd cexTrig ⟨0, 0, 0, none⟩ cmdArc59).1.length : ℤ)
        = max 8 (roundNearest ((59/60 : ℚ) * 180 / 3 / 5))) := by
  have habs : |(59 : ℚ)/60| = 59/60 := abs_of_pos (by norm_num)
  have hlen : (processCmd cexTrig ⟨0, 0, 0, none⟩ cmdArc59).1.length = 11 := by
    simp only [processCmd, cmdArc59, processArc, cexTrig, normalizeEndAngle,
      Option.getD]
    norm_num [discretizeArc_length, habs, numSegments_59]
  rw [hlen]
  have hr : roundNearest ((59/60 : ℚ) * 180 / 3 / 5) = 12 := by
    unfold roundNearest
    rw [show ((59 : ℚ)/60 * 180 / 3 / 5 + 1/2) = 123/10 by norm_num]
    rw [Int.floor_eq_iff]
    norm_num
  rw [hr]
  norm_num

/-- C7 amended: an ArcCW/ArcCCW command whose Z changes by more than
0.001 is discretized into exactly
`max(8, int(sweep_degrees / 5))` line segments — truncation, not
rounding — with Z linearly interpolated from the start Z to the end Z
(`sweep` being the normalized angular difference). -/
theorem arc_discretization (t : TrigOps) (s : NormState) (x y z i j : ℚ)
    (dir : Direction) (hz : 1/1000 < |z - s.cz|) :
    ∃ sa ea,
      sa = t.atan2 (s.cy - (s.cy + j)) (s.cx - (s.cx + i))
      ∧ ea = normalizeEndAngle t.pi dir sa
          (t.atan2 (y - (s.cy + j)) (x - (s.cx + i)))
      ∧ (processArc t s x y z i j dir).length = numSegments t.pi (|ea - sa|)
      ∧ (processArc t s x y z i j dir).map Elem.zval
          = (List.range (numSegments t.pi (|ea - sa|))).map
              (fun (k : ℕ) => s.cz + (z - s.cz)
                * (((k : ℚ) + 1) / (numSegments t.pi (|ea - sa|) : ℚ)))
      ∧ (processArc t s x y z i j dir).all Elem.isKL = true := by
  refine ⟨_, _, rfl, rfl, ?_, ?_, ?_⟩
  · simp only [processArc, if_pos hz]
    exact discretizeArc_length _ _ _ _ _ _ _ _ _
  · simp only [processArc, if_pos hz]
    exact discretizeArc_zmap _ _ _ _ _ _ _ _ _
  · simp only [processArc, if_pos hz]
    exact discretizeArc_allKL _ _ _ _ _ _ _ _ _

/-- Witness for C7 amended: the arc `cmdArc59` under `cexTrig` changes Z
by 1 and is discretized into 11 segments. -/
theorem arc_discretization_witness :
    (1/1000 : ℚ) < |1 - (⟨0, 0, 0, none⟩ : NormState).cz|
    ∧ (processArc cexTrig ⟨0, 0, 0, none⟩ 1 0 1 0 1 .cw).length = 11 := by
  constructor
  · norm_num
  · obtain ⟨sa, ea, hsa, hea, hlen, -, -⟩ :=
      arc_discretization cexTrig ⟨0, 0, 0, none⟩ 1 0 1 0 1 .cw (by norm_num)
    rw [hlen, hea, hsa]
    have habs : |(59 : ℚ)/60| = 59/60 := abs_of_pos (by norm_num)
    simp only [cexTrig, normalizeEndAngle]
    norm_num [habs, numSegments_59]

/-- The cursor of the command walk always ends at the final resolved
(x, y, z), for any command sequence. -/
theorem processPath_cursor (t : TrigOps) (cmds : List Cmd) :
    ∀ s : NormState,
      ((processPath t s cmds).2.cx, (processPath t s cmds).2.cy,
        (processPath t s cmds).2.cz)
        = resolvedCursor (s.cx, s.cy, s.cz) cmds := by
  induction cmds with
  | nil => intro s; rfl
  | cons c cs ih =>
    intro s
    exact ih (processCmd t s c).2

/-- C9 counterexample: the parameterless G2 command is a sub-tolerance
(zero-displacement) move, yet the normalizer emits an arc element for
it — the element list is not empty. -/
theorem subtol_cex :
    allSubTol testTrig ⟨0, 0, 0, none⟩ [g2empty]
    ∧ (extract_contour_from_path testTrig [g2empty]).1 ≠ [] := by
  constructor
  · refine ⟨⟨?_, ?_, ?_⟩, trivial⟩ <;> simp [g2empty]
  · simp only [extract_contour_from_path, processPath, processCmd, g2empty,
      processArc, Option.getD]
    norm_num

/-- A walk over arc-free sub-tolerance commands emits no element. -/
theorem processPath_subtol_nil (t : TrigOps) (cmds : List Cmd) :
    ∀ s : NormState, (∀ c ∈ cmds, c.name ≠ .g2 ∧ c.name ≠ .g3) →
      allSubTol t s cmds → (processPath t s cmds).1 = [] := by
  induction cmds with
  | nil => intro s _ _; rfl
  | cons c cs ih =>
    intro s hna htol
    obtain ⟨⟨h1, h2, h3⟩, hrest⟩ := htol
    have hcs := fun d hd => hna d (List.mem_cons_of_mem _ hd)
    have hc := hna c (List.mem_cons_self _ _)
    simp only [processPath, List.append_eq_nil]
    refine ⟨?_, ih _ hcs hrest⟩
    cases hn : c.name with
    | g0 =>
      simp only [processCmd, hn]
      rw [if_neg (not_not_intro ⟨h1, h2, h3⟩)]
    | g1 =>
      simp only [processCmd, hn]
      rw [if_neg (not_not_intro ⟨h1, h2, h3⟩)]
    | g2 => exact absurd hn hc.1
    | g3 => exact absurd hn hc.2
    | g81 => simp only [processCmd, hn]
    | g82 => simp only [processCmd, hn]
    | g83 => simp only [processCmd, hn]
    | tcmd n => simp only [processCmd, hn]
    | other => simp only [processCmd, hn]

/-- C9 amended: a command sequence containing no arc commands, in which
every command's per-axis displacement from the current cursor stays
below the 0.001 tolerance, produces an empty element list, while the
cursor still advances after every command and ends at the final
command's resolved position. -/
theorem subtol_no_elements (t : TrigOps) (cmds : List Cmd)
    (hnoarc : ∀ c ∈ cmds, c.name ≠ .g2 ∧ c.name ≠ .g3)
    (htol : allSubTol t ⟨0, 0, 0, none⟩ cmds) :
    (extract_contour_from_path t cmds).1 = []
    ∧ ((processPath t ⟨0, 0, 0, none⟩ cmds).2.cx,
        (processPath t ⟨0, 0, 0, none⟩ cmds).2.cy,
        (processPath t ⟨0, 0, 0, none⟩ cmds).2.cz)
        = resolvedCursor (0, 0, 0) cmds := by
  constructor
  · exact processPath_subtol_nil t cmds ⟨0, 0, 0, none⟩ hnoarc htol
  · exact processPath_cursor t cmds ⟨0, 0, 0, none⟩

/-- Witness for C9 amended: a single half-tolerance G1 move yields no
elements and a final cursor at (1/2000, 0, 0). -/
theorem subtol_no_elements_witness :
    (extract_contour_from_path testTrig [g1tiny]).1 = []
    ∧ ((processPath testTrig ⟨0, 0, 0, none⟩ [g1tiny]).2.cx,
        (processPath testTrig ⟨0, 0, 0, none⟩ [g1tiny]).2.cy,
        (processPath testTrig ⟨0, 0, 0, none⟩ [g1tiny]).2.cz)
        = resolvedCursor (0, 0, 0) [g1tiny] :=
  subtol_no_elements testTrig [g1tiny]
    (by
      intro c hc
      simp only [List.mem_singleton] at hc
      subst hc
      exact ⟨by simp [g1tiny], by simp [g1tiny]⟩)
    (by
      refine ⟨⟨?_, ?_, ?_⟩, trivial⟩
      · simp only [g1tiny, Option.getD]
        rw [show |(1 : ℚ)/2000 - 0| = 1/2000 by
          rw [sub_zero]; exact abs_of_pos (by norm_num)]
        norm_num
      · simp [g1tiny]
      · simp [g1tiny])

/-- A command list with no T-named command scans to `none`. -/
theorem findTCmd_none (cmds : List Cmd)
    (h : ∀ c ∈ cmds, c.name.isTCmd = false) : findTCmd cmds = none := by
  induction cmds with
  | nil => rfl
  | cons c cs ih =>
    have hc := h c (List.mem_cons_self _ _)
    have hcs := fun d hd => h d (List.mem_cons_of_mem _ hd)
    cases hn : c.name with
    | tcmd n =>
      rw [hn] at hc
      exact absurd hc (by simp [CmdName.isTCmd])
    | g0 => rw [findTCmd, hn]; exact ih hcs
    | g1 => rw [findTCmd, hn]; exact ih hcs
    | g2 => rw [findTCmd, hn]; exact ih hcs
    | g3 => rw [findTCmd, hn]; exact ih hcs
    | g81 => rw [findTCmd, hn]; exact ih hcs
    | g82 => rw [findTCmd, hn]; exact ih hcs
    | g83 => rw [findTCmd, hn]; exact ih hcs
    | other => rw [findTCmd, hn]; exact ih hcs

/-- C10: a path object exposing neither a ToolController tool number nor
a T command resolves to the default tool number 101, and every
drilling, contour-milling and pocket record created for it carries that
numeric tool field. -/
theorem default_tool_number (o : PathObj)
    (h1 : o.toolControllerNumber = none)
    (h2 : o.toolControllerToolNumber = none)
    (h3 : ∀ c ∈ o.commands, c.name.isTCmd = false) :
    get_tool_number o = 101
    ∧ (∀ op ∈ extract_drilling_operations o, op.tool = 101)
    ∧ (∀ cid : ℕ, (create_contour_milling cid (get_tool_number o)).tool = 101
        ∧ (create_pocket_milling cid (get_tool_number o)).tool = 101) := by
  have hg : get_tool_number o = 101 := by
    unfold get_tool_number
    rw [h1, h2, findTCmd_none o.commands h3]
  refine ⟨hg, ?_, ?_⟩
  · intro op hop
    obtain ⟨p, -, hp⟩ := List.mem_map.mp hop
    rw [← hp]
    show get_tool_number o = 101
    exact hg
  · intro cid
    rw [hg]
    exact ⟨rfl, rfl⟩

/-- Witness for C10: the drilling object `drillObj` (no ToolController,
one G81 cycle) gets tool 101 everywhere. -/
theorem default_tool_number_witness :
    get_tool_number drillObj = 101
    ∧ (∀ op ∈ extract_drilling_operations drillObj, op.tool = 101)
    ∧ (∀ cid : ℕ,
        (create_contour_milling cid (get_tool_number drillObj)).tool = 101
        ∧ (create_pocket_milling cid (get_tool_number drillObj)).tool = 101) :=
  default_tool_number drillObj rfl rfl
    (by
      intro c hc
      simp only [drillObj, List.mem_singleton] at hc
      subst hc
      rfl)

/-- The updated minimum is at most the new value. -/
theorem updMin_le_self (m : Option ℚ) (v : ℚ) : oLe (updMin m v) v := by
  cases m with
  | none => exact ⟨v, rfl, le_refl v⟩
  | some w =>
    simp only [updMin]
    split_ifs with h
    · exact ⟨v, rfl, le_refl v⟩
    · exact ⟨w, rfl, le_of_not_lt h⟩

/-- Updating can only lower an established bound. -/
theorem updMin_mono {m : Option ℚ} {v : ℚ} (u : ℚ) (h : oLe m v) :
    oLe (updMin m u) v := by
  obtain ⟨w, hm, hw⟩ := h
  subst hm
  simp only [updMin]
  split_ifs with hlt
  · exact ⟨u, rfl, le_trans (le_of_lt hlt) hw⟩
  · exact ⟨w, rfl, hw⟩

/-- Folding a point bounds that point. -/
theorem accPoint_self (m : MinAcc) (x y z : ℚ) :
    oLe3 (accPoint m x y z) (x, y, z) :=
  ⟨updMin_le_self _ _, updMin_le_self _ _, updMin_le_self _ _⟩

/-- Folding a point preserves established bounds. -/
theorem accPoint_mono {m : MinAcc} {q : ℚ × ℚ × ℚ} (x y z : ℚ)
    (h : oLe3 m q) : oLe3 (accPoint m x y z) q :=
  ⟨updMin_mono _ h.1, updMin_mono _ h.2.1, updMin_mono _ h.2.2⟩

/-- Folding an X/Y pair preserves established bounds. -/
theorem accXY_mono {m : MinAcc} {q : ℚ × ℚ × ℚ} (x y : ℚ)
    (h : oLe3 m q) : oLe3 (accXY m x y) q :=
  ⟨updMin_mono _ h.1, updMin_mono _ h.2.1, h.2.2⟩

/-- Folding an X/Y pair bounds it, given an established Z bound. -/
theorem accXY_self {m : MinAcc} (x y z : ℚ) (hz : oLe m.mz z) :
    oLe3 (accXY m x y) (x, y, z) :=
  ⟨updMin_le_self _ _, updMin_le_self _ _, hz⟩

/-- Folding an element preserves established bounds. -/
theorem scanElem_mono {m : MinAcc} {q : ℚ × ℚ × ℚ} (p : Pt) (e : Elem)
    (h : oLe3 m q) : oLe3 (scanElem m p e) q := by
  cases e with
  | kl x y z mt => exact accPoint_mono _ _ _ h
  | ka x y z i j x2 y2 r dir =>
    simp only [scanElem, elemEnd]
    split_ifs with hr
    · exact accXY_mono _ _ (accPoint_mono _ _ _ (accPoint_mono _ _ _ h))
    · exact accPoint_mono _ _ _ (accPoint_mono _ _ _ h)

/-- Folding an element bounds each of its targets. -/
theorem scanElem_touch (m : MinAcc) (p : Pt) (e : Elem) :
    ∀ q ∈ elemTargets p e, oLe3 (scanElem m p e) q := by
  intro q hq
  cases e with
  | kl x y z mt =>
    simp only [elemTargets, List.mem_singleton] at hq
    subst hq
    exact accPoint_self _ _ _ _
  | ka x y z i j x2 y2 r dir =>
    simp only [elemTargets, List.mem_cons] at hq
    rcases hq with hq | hq | hq
    · subst hq
      simp only [scanElem, elemEnd]
      split_ifs with hr
      · exact accXY_mono _ _ (accPoint_mono _ _ _ (accPoint_self _ _ _ _))
      · exact accPoint_mono _ _ _ (accPoint_self _ _ _ _)
    · subst hq
      simp only [scanElem, elemEnd]
      split_ifs with hr
      · exact accXY_mono _ _ (accPoint_self _ _ _ _)
      · exact accPoint_self _ _ _ _
    · by_cases hr : 1/1000 < r
      · rw [if_pos hr, List.mem_singleton] at hq
        subst hq
        simp only [scanElem, elemEnd]
        rw [if_pos hr]
        exact accXY_self _ _ _ (updMin_le_self _ _)
      · rw [if_neg hr] at hq
        exact absurd hq (List.not_mem_nil q)

/-- Folding an element list preserves established bounds. -/
theorem scanElems_mono {q : ℚ × ℚ × ℚ} (es : List Elem) :
    ∀ (m : MinAcc) (p : Pt), oLe3 m q → oLe3 (scanElems m p es) q := by
  induction es with
  | nil => intro m p h; exact h
  | cons e es ih =>
    intro m p h
    exact ih _ _ (scanElem_mono p e h)

/-- Stepping past the head element shifts the previous-point index. -/
theorem prevAt_cons (p : Pt) (e : Elem) (es : List Elem) (k : ℕ) :
    prevAt p (e :: es) (k + 1) = prevAt (elemEnd e) es k :=
  rfl

/-- The element loop bounds every target of every element, each taken at
its own previous point. -/
theorem scanElems_touch (es : List Elem) :
    ∀ (m : MinAcc) (p : Pt) (k : ℕ) (e : Elem), es.get? k = some e →
      ∀ q ∈ elemTargets (prevAt p es k) e, oLe3 (scanElems m p es) q := by
  induction es with
  | nil => intro m p k e hk; simp at hk
  | cons e0 es ih =>
    intro m p k e hk q hq
    cases k with
    | zero =>
      simp only [List.get?] at hk
      injection hk with hk
      subst hk
      show oLe3 (scanElems (scanElem m p e0) (elemEnd e0) es) q
      exact scanElems_mono es _ _ (scanElem_touch m p e0 q hq)
    | succ k =>
      simp only [List.get?] at hk
      rw [prevAt_cons] at hq
      exact ih (scanElem m p e0) (elemEnd e0) k e hk q hq

/-- One contour fold preserves established bounds. -/
theorem scanContour_mono {m : MinAcc} {q : ℚ × ℚ × ℚ} (c : Contour)
    (h : oLe3 m q) : oLe3 (scanContour m c) q :=
  scanElems_mono c.elements _ _ (accPoint_mono _ _ _ h)

/-- One contour fold bounds the contour's start position. -/
theorem scanContour_start (m : MinAcc) (c : Contour) :
    oLe3 (scanContour m c) (c.start.x, c.start.y, c.start.z) :=
  scanElems_mono c.elements _ _ (accPoint_self _ _ _ _)

/-- One contour fold bounds every element target of the contour. -/
theorem scanContour_touch (m : MinAcc) (c : Contour) (k : ℕ) (e : Elem)
    (hk : c.elements.get? k = some e) :
    ∀ q ∈ elemTargets (prevAt c.start c.elements k) e,
      oLe3 (scanContour m c) q :=
  scanElems_touch c.elements _ _ k e hk

/-- The contour fold preserves established bounds. -/
theorem foldContours_mono {q : ℚ × ℚ × ℚ} (cs : List Contour) :
    ∀ m : MinAcc, oLe3 m q → oLe3 (cs.foldl scanContour m) q := by
  induction cs with
  | nil => intro m h; exact h
  | cons c cs ih => intro m h; exact ih _ (scanContour_mono c h)

/-- The contour fold bounds every member contour's start position. -/
theorem foldContours_start (cs : List Contour) (c : Contour) (hc : c ∈ cs) :
    ∀ m : MinAcc,
      oLe3 (cs.foldl scanContour m) (c.start.x, c.start.y, c.start.z) := by
  induction cs with
  | nil => exact absurd hc (List.not_mem_nil c)
  | cons c0 cs ih =>
    intro m
    rcases List.mem_cons.mp hc with h | h
    · subst h
      exact foldContours_mono cs _ (scanContour_start m c)
    · exact ih h _

/-- The contour fold bounds every element target of every member
contour. -/
theorem foldContours_touch (cs : List Contour) (c : Contour) (hc : c ∈ cs)
    (k : ℕ) (e : Elem) (hk : c.elements.get? k = some e) :
    ∀ q ∈ elemTargets (prevAt c.start c.elements k) e,
      ∀ m : MinAcc, oLe3 (cs.foldl scanContour m) q := by
  induction cs with
  | nil => exact absurd hc (List.not_mem_nil c)
  | cons c0 cs ih =>
    intro q hq m
    rcases List.mem_cons.mp hc with h | h
    · subst h
      exact foldContours_mono cs _ (scanContour_touch m c k e hk q hq)
    · exact ih h q hq _

/-- One operation fold preserves established bounds. -/
theorem scanOp_mono {m : MinAcc} {q : ℚ × ℚ × ℚ} (op : Op)
    (h : oLe3 m q) : oLe3 (scanOp m op) q := by
  cases op with
  | bohrVert xa ya depth tool => exact accPoint_mono _ _ _ h
  | contourfraesen cid tool => exact h
  | pocket cid tool => exact h

/-- The operation fold preserves established bounds. -/
theorem foldOps_mono {q : ℚ × ℚ × ℚ} (os : List Op) :
    ∀ m : MinAcc, oLe3 m q → oLe3 (os.foldl scanOp m) q := by
  induction os with
  | nil => intro m h; exact h
  | cons op os ih => intro m h; exact ih _ (scanOp_mono op h)

/-- The operation fold bounds every member drilling position at
Z = -depth. -/
theorem foldOps_drill (os : List Op) (xa ya depth : ℚ) (tool : ℤ)
    (hop : Op.bohrVert xa ya depth tool ∈ os) :
    ∀ m : MinAcc, oLe3 (os.foldl scanOp m) (xa, ya, -depth) := by
  induction os with
  | nil => exact absurd hop (List.not_mem_nil _)
  | cons op os ih =>
    intro m
    rcases List.mem_cons.mp hop with h | h
    · subst h
      exact foldOps_mono os _ (accPoint_self _ _ _ _)
    · exact ih h _

/-- Any bound established by the full fold is a bound on the returned
minimum triple. -/
theorem calcMin_of_oLe3 (cs : List Contour) (os : List Op)
    {q : ℚ × ℚ × ℚ}
    (h : oLe3 (os.foldl scanOp (cs.foldl scanContour ⟨none, none, none⟩)) q) :
    tripleLe (calculate_part_minimum cs os) q.1 q.2.1 q.2.2 := by
  obtain ⟨⟨a, ha, hale⟩, ⟨b, hb, hble⟩, ⟨c, hc, hcle⟩⟩ := h
  unfold calculate_part_minimum
  simp only [ha, hb, hc]
  exact ⟨hale, hble, hcle⟩

/-- A fold over operations none of which is a drilling leaves the
accumulator unchanged. -/
theorem foldOps_noBohr (os : List Op) (hos : ∀ op ∈ os, op.isBohr = false) :
    ∀ m : MinAcc, os.foldl scanOp m = m := by
  induction os with
  | nil => intro m; rfl
  | cons op os ih =>
    intro m
    have h0 := hos op (List.mem_cons_self _ _)
    have hs := fun d hd => hos d (List.mem_cons_of_mem _ hd)
    cases op with
    | bohrVert xa ya depth tool => exact absurd h0 (by simp [Op.isBohr])
    | contourfraesen cid tool => exact ih hs m
    | pocket cid tool => exact ih hs m

/-- C8: Minimum-point monotonicity, as the code computes it — the
returned (min_x, min_y, min_z) is componentwise at most every contour
start position, every element end point, every arc's reconstructed
center (previous point + (i, j)) at the previous Z, every arc's X/Y
extent `center - radius` when the stored radius exceeds 0.001, and
every drilling position with Z taken as -depth; and it is (0, 0, 0)
when no contour and no drilling operation exists. -/
theorem minimum_monotone (cs : List Contour) (os : List Op) :
    (∀ c ∈ cs, tripleLe (calculate_part_minimum cs os)
        c.start.x c.start.y c.start.z)
    ∧ (∀ c ∈ cs, ∀ (k : ℕ) (e : Elem), c.elements.get? k = some e →
        ∀ q ∈ elemTargets (prevAt c.start c.elements k) e,
          tripleLe (calculate_part_minimum cs os) q.1 q.2.1 q.2.2)
    ∧ (∀ (xa ya depth : ℚ) (tool : ℤ), Op.bohrVert xa ya depth tool ∈ os →
        tripleLe (calculate_part_minimum cs os) xa ya (-depth))
    ∧ ((cs = [] ∧ ∀ op ∈ os, op.isBohr = false) →
        calculate_part_minimum cs os = (0, 0, 0)) := by
  refine ⟨?_, ?_, ?_, ?_⟩
  · intro c hc
    exact calcMin_of_oLe3 cs os
      (foldOps_mono os _ (foldContours_start cs c hc _))
  · intro c hc k e hk q hq
    exact calcMin_of_oLe3 cs os
      (foldOps_mono os _ (foldContours_touch cs c hc k e hk q hq _))
  · intro xa ya depth tool hop
    exact calcMin_of_oLe3 cs os (foldOps_drill os xa ya depth tool hop _)
  · intro ⟨hcs, hos⟩
    subst hcs
    unfold calculate_part_minimum
    rw [show ([] : List Contour).foldl scanContour ⟨none, none, none⟩
        = (⟨none, none, none⟩ : MinAcc) from rfl]
    rw [foldOps_noBohr os hos]

/-- C8 counterexample: for the contour whose only element is an arc of
stored radius 1/2000 centered at the origin, the code returns
(0, 0, 0), but the claimed bound `min_x <= center_x - radius` demands
`0 <= -1/2000` — the X/Y extent is only folded when the radius exceeds
0.001. -/
theorem minimum_monotone_cex :
    ¬ ((calculate_part_minimum [tinyArcContour] []).1
        ≤ (0 : ℚ) + 0 - 1/2000) := by
  have hev : calculate_part_minimum [tinyArcContour] [] = (0, 0, 0) := by
    simp only [calculate_part_minimum, tinyArcContour, List.foldl,
      scanContour, scanElems, scanElem, accPoint, accXY, updMin, elemEnd]
    norm_num
  rw [hev]
  norm_num

/-- Witness for C8: on one concrete contour and one drilling operation
the returned minimum bounds the contour start and the drill position at
Z = -depth. -/
theorem minimum_monotone_witness :
    tripleLe (calculate_part_minimum [witContour] [witDrill])
      witContour.start.x witContour.start.y witContour.start.z
    ∧ tripleLe (calculate_part_minimum [witContour] [witDrill]) 1 2 (-9) :=
  ⟨(minimum_monotone [witContour] [witDrill]).1 witContour
      (List.mem_singleton_self _),
   (minimum_monotone [witContour] [witDrill]).2.2.1 1 2 9 101
      (by simp [witDrill])⟩

end Woodwop
